import Mathlib

/-!
Verification of the MATLAB-domain token parser of `sphinxcontrib.documenters`
(`MatObject.parse_mfile`, `MatMixin`, `MatFunction.__init__`,
`MatClass.__init__`).

The embedding is a shallow one over the token stream.  The Python code walks
an immutable token list with a monotonically increasing index `idx`; every
read is `self.tokens[idx]`, which raises `IndexError` when `idx` is past the
end.  We embed this in suffix-passing style: a position in the stream is the
list suffix starting there, `idx += n` is dropping `n` elements, and reading
past the end is the error `PErr.indexErr`.  Each `while` loop of the source
becomes a recursive function; the loops of `MatClass.__init__` advance the
index by at least one token per iteration, so they are given
`length-of-remaining-input + 1` units of fuel, which can never run out
(`PErr.fuelErr` is the embedding's marker for the impossible case).
-/

/-- Pygments token categories used by the parser (`Token.Keyword`,
`Token.Text`, `Token.Punctuation`, `Token.Name`, `Token.Operator`,
`Token.Comment`; `other` stands for any further Pygments category).
The source compares categories with `is`, which for Pygments singleton
token types is equality. -/
inductive TKind where
  | keyword
  | text
  | punctuation
  | name
  | operator
  | comment
  | other
deriving DecidableEq, Repr

/-- A Pygments token: a (category, text) pair, as produced by
`MatlabLexer().get_tokens(code)` in `MatObject.parse_mfile`. -/
abbrev Token := TKind × String

/-- The error outcomes of the parsing code.
`notAClass` is the `TypeError` of line 301; `unknownAttr` the exception of
line 320 ("Unexpected class attribute") carrying the offending token text;
`badName` the exception of line 361 ("Unexpected class name"); `indexErr`
is Python's `IndexError` from reading `self.tokens[idx]` past the end of
the list; `superTypeErr` is the `TypeError` raised by
`super(MatClass, self).__init__(name)` in `MatFunction.__init__` (line 249),
since a `MatFunction` instance is not an instance of `MatClass`.
`fuelErr` is an artifact of the embedding's loop fuel and is unreachable
for the fuel supplied by `matClassInit` (each loop iteration consumes at
least one token). -/
inductive PErr where
  | notAClass
  | unknownAttr (s : String)
  | badName (s : String)
  | indexErr
  | superTypeErr
  | fuelErr
deriving DecidableEq, Repr

/-- A parsed class-attribute value: either a Python list of strings (the
default `[]` of line 316 and the cell-array values of lines 337-350) or the
string `"true"`/`"false"` stored by line 334. -/
inductive AttrVal where
  | vlist (xs : List String)
  | vstr (s : String)
deriving DecidableEq, Repr

/-- Model of `self.attrs`, a Python dict; we model it as an association list
with dict update semantics (`dinsert`). -/
abbrev AttrMap := List (String × AttrVal)

/-- Python dict assignment `d[k] = v`: replace in place if the key is
present, append otherwise. -/
def dinsert (m : AttrMap) (k : String) (v : AttrVal) : AttrMap :=
  match m with
  | [] => [(k, v)]
  | (k0, v0) :: m0 => if k0 = k then (k0, v) :: m0 else (k0, v0) :: dinsert m0 k v

/-- The declared Python type of an attribute value in `cls_attr_types`
(`bool` or `list`).  The parser only tests key membership, never the type. -/
inductive PyType where
  | pyBool
  | pyList
deriving DecidableEq, Repr

/-- Embedding of `MatClass.cls_attr_types` (lines 272-274): the closed vocabulary of
recognized class attribute names. -/
def cls_attr_types : List (String × PyType) :=
  [("Abstract", .pyBool), ("AllowedSubclasses", .pyList),
   ("ConstructOnLoad", .pyBool), ("HandleCompatible", .pyBool),
   ("Hidden", .pyBool), ("InferiorClasses", .pyList), ("Sealed", .pyBool)]

/-- Embedding of `MatClass.prop_attr_types` (lines 275-278); unused by the executed
parsing code, kept for completeness. -/
def prop_attr_types : List (String × PyType) :=
  [("AbortSet", .pyBool), ("Abstract", .pyBool), ("Access", .pyList),
   ("Constant", .pyBool), ("Dependent", .pyBool), ("GetAccess", .pyList),
   ("GetObservable", .pyBool), ("Hidden", .pyBool), ("SetAccess", .pyList),
   ("SetObservable", .pyBool), ("Transient", .pyBool)]

/-- The whitespace test of `MatMixin._whitespace` (lines 216-217):
a `Token.Text` token whose text is a space, newline or tab. -/
abbrev isWs (t : Token) : Prop :=
  t.1 = TKind.text ∧ (t.2 = " " ∨ t.2 = "\n" ∨ t.2 = "\t")

/-- The indentation test of `MatMixin._indent` (lines 229-230):
a `Token.Text` token whose text is a space or tab. -/
abbrev isInd (t : Token) : Prop :=
  t.1 = TKind.text ∧ (t.2 = " " ∨ t.2 = "\t")

/-- Embedding of `MatMixin._blanks` followed by the caller's `idx += self._blanks(idx)`:
skip the run of `(Token.Text, " ")` tokens at the current position and
return the rest of the stream.  `_blanks` probes each position with
`_tk_eq`, which reads `self.tokens[idx]`, so scanning past the end of the
stream raises `IndexError`. -/
def blanksRun : List Token → Except PErr (List Token)
  | [] => .error .indexErr
  | t :: rest => if t = ((TKind.text, " ") : Token) then blanksRun rest else .ok (t :: rest)

/-- Embedding of `MatMixin._whitespace` (lines 207-219): the number of consecutive
whitespace text tokens at the current position.  Non-advancing; reading
past the end of the stream raises `IndexError`. -/
def whitespaceCount : List Token → Except PErr Nat
  | [] => .error .indexErr
  | t :: rest =>
      if isWs t then (whitespaceCount rest).map (· + 1) else .ok 0

/-- Embedding of `MatMixin._indent` (lines 221-232) followed by the caller's optional
`idx += indent`: the number of consecutive space/tab text tokens at the
current position, together with the stream after them.  Reading past the
end raises `IndexError`. -/
def indentRun : List Token → Except PErr (Nat × List Token)
  | [] => .error .indexErr
  | t :: rest =>
      if isInd t then (indentRun rest).map (fun p => (p.1 + 1, p.2))
      else .ok (0, t :: rest)

/-- The superclass-name accumulation loop of `MatClass.__init__`
(lines 372-375): `while not self._whitespace(idx): base_name +=
self.tokens[idx][1]; idx += 1`.  The loop condition itself calls
`_whitespace`, which raises `IndexError` if its whitespace scan runs past
the end of the stream. -/
def baseAccum : String → List Token → Except PErr (String × List Token)
  | _, [] => .error .indexErr
  | acc, t :: rest => do
      let w ← whitespaceCount (t :: rest)
      if w = 0 then baseAccum (acc ++ t.2) rest
      else .ok (acc, t :: rest)

/-- The cell-array element accumulation loop of `MatClass.__init__`
(lines 342-346): `attr_val = ''` then `while self._tk_ne(idx, (Token.Text,
' ')) and self._tk_ne(idx, (Token.Punctuation, ',')): attr_val +=
self.tokens[idx][1]; idx += 1`.  `_tk_ne` reads `self.tokens[idx]`, so
running past the end raises `IndexError`. -/
def cellAccum : String → List Token → Except PErr (String × List Token)
  | _, [] => .error .indexErr
  | acc, t :: rest =>
      if t ≠ ((TKind.text, " ") : Token) ∧ t ≠ ((TKind.punctuation, ",") : Token) then
        cellAccum (acc ++ t.2) rest
      else .ok (acc, t :: rest)

/-- The cell-array value loop of `MatClass.__init__` (lines 339-350):
`while self._tk_ne(idx, (Token.Punctuation, '}'))`, collecting the
accumulated element after each pass (`if attr_val:
self.attrs[cls_attr].append(attr_val)`); the unconditional `idx += 1` of
line 347 is the `drop 1`.  On loop exit line 350 advances past the `}`.
The collected elements are returned and written back by the caller; this
is equivalent to the source's in-place `append`s because line 316 has just
reset the attribute's value to the empty list. -/
def cellLoop : Nat → List String → List Token → Except PErr (List String × List Token)
  | 0, _, _ => .error .fuelErr
  | _ + 1, _, [] => .error .indexErr
  | fuel + 1, vals, t :: rest =>
      if t = ((TKind.punctuation, "\x7d") : Token) then .ok (vals, rest)
      else do
        let ts ← blanksRun (t :: rest)
        let (v, ts1) ← cellAccum "" ts
        let ts2 := ts1.drop 1
        cellLoop fuel (if v ≠ "" then vals ++ [v] else vals) ts2

/-- The class-attributes loop of `MatClass.__init__` (lines 312-355):
`while self._tk_ne(idx, (Token.Punctuation, ')'))`.  Each iteration skips
blanks, reads a `Token.Name` that must be a key of `cls_attr_types` (else
the "Unexpected class attribute" exception of line 320, carrying the
offending token's text), registers it with value `[]`, skips blanks, and
then either consumes a comma, or consumes `=` followed by a bare
`true`/`false` name or a brace-delimited cell array, then skips blanks and
an optional comma.  On loop exit line 355 advances past the `)`.
The `.error .indexErr` arms after a successful `blanksRun` are unreachable
(a successful blank scan stops on a token) but mirror the source's reads. -/
def attrLoop : Nat → AttrMap → List Token → Except PErr (AttrMap × List Token)
  | 0, _, _ => .error .fuelErr
  | _ + 1, _, [] => .error .indexErr
  | fuel + 1, attrs, t :: rest =>
      if t = ((TKind.punctuation, ")") : Token) then .ok (attrs, rest)
      else do
        let ts ← blanksRun (t :: rest)
        match ts with
        | [] => .error .indexErr
        | (k, a) :: ts1 =>
          if k = TKind.name ∧ (cls_attr_types.lookup a).isSome then do
            let attrs1 := dinsert attrs a (.vlist [])
            let ts2 ← blanksRun ts1
            match ts2 with
            | [] => .error .indexErr
            | u :: ts3 =>
              if u = ((TKind.punctuation, ",") : Token) then attrLoop fuel attrs1 ts3
              else if u = ((TKind.punctuation, "=") : Token) then do
                let ts4 ← blanksRun ts3
                match ts4 with
                | [] => .error .indexErr
                | (k2, v) :: ts5 => do
                  let (attrs2, tsv) ←
                    if k2 = TKind.name ∧ (v = "true" ∨ v = "false") then
                      .ok (dinsert attrs1 a (.vstr v), ts5)
                    else if ((k2, v) : Token) = ((TKind.punctuation, "\x7b") : Token) then do
                      let (xs, ts6) ← cellLoop (ts5.length + 1) [] ts5
                      .ok (dinsert attrs1 a (.vlist xs), ts6)
                    else .ok (attrs1, (k2, v) :: ts5)
                  let ts7 ← blanksRun tsv
                  match ts7 with
                  | [] => .error .indexErr
                  | w :: ts8 =>
                    if w = ((TKind.punctuation, ",") : Token) then attrLoop fuel attrs2 ts8
                    else attrLoop fuel attrs2 (w :: ts8)
              else attrLoop fuel attrs1 (u :: ts3)
          else .error (.unknownAttr a)

/-- The superclass loop of `MatClass.__init__` (lines 369-385):
`while self._tk_ne(idx, (Token.Text, '\n'))`.  Each iteration skips blanks,
accumulates a base name from consecutive non-whitespace tokens, advances
one token unless standing on a newline (lines 377-378), appends the name
if non-empty, skips blanks, and consumes an `&` if present.  On loop exit
line 385 advances past the newline. -/
def basesLoop : Nat → List String → List Token → Except PErr (List String × List Token)
  | 0, _, _ => .error .fuelErr
  | _ + 1, _, [] => .error .indexErr
  | fuel + 1, bases, t :: rest =>
      if t = ((TKind.text, "\n") : Token) then .ok (bases, rest)
      else do
        let ts ← blanksRun (t :: rest)
        let (bn, ts1) ← baseAccum "" ts
        match ts1 with
        | [] => .error .indexErr
        | u :: ts2 => do
          let ts3 := if u ≠ ((TKind.text, "\n") : Token) then ts2 else u :: ts2
          let bases1 := if bn ≠ "" then bases ++ [bn] else bases
          let ts4 ← blanksRun ts3
          match ts4 with
          | [] => .error .indexErr
          | w :: ts5 =>
            if w = ((TKind.operator, "&") : Token) then basesLoop fuel bases1 ts5
            else basesLoop fuel bases1 (w :: ts5)

/-- The docstring loop of `MatClass.__init__` (lines 396-406):
`while self.tokens[idx][0] is Token.Comment`.  Each iteration appends the
comment's text, appends and consumes a following newline token if present
(lines 400-402), then measures and skips the next line's indentation
(lines 404-406; `_indent` raises `IndexError` at the end of the stream). -/
def docLoop : Nat → String → List Token → Except PErr (String × List Token)
  | 0, _, _ => .error .fuelErr
  | _ + 1, _, [] => .error .indexErr
  | fuel + 1, doc, t :: rest =>
      if t.1 = TKind.comment then
        match rest with
        | [] => .error .indexErr
        | u :: rest1 => do
          let (doc1, ts) :=
            if u = ((TKind.text, "\n") : Token) then (doc ++ t.2 ++ u.2, rest1)
            else (doc ++ t.2, u :: rest1)
          let (_, ts1) ← indentRun ts
          docLoop fuel doc1 ts1
      else .ok (doc, t :: rest)

/-- The fields of a fully constructed `MatClass` (`MatClass.__init__`,
lines 279-294): name, folder path, the raw token list, the class
attributes dict, the ordered superclass list, the docstring, and the
(never populated) properties and methods dicts. -/
structure MatClass where
  name : String
  path : String
  tokens : List Token
  attrs : AttrMap
  bases : List String
  docstring : String
  properties : List (String × String)
  methods : List (String × String)
deriving DecidableEq, Repr

/-- The fields `MatFunction.__init__` (lines 248-253) would set if its
initialization did not fail. -/
structure MatFunction where
  name : String
  path : String
  tokens : List Token
deriving DecidableEq, Repr

/-- Embedding of `MatClass.__init__` (lines 279-406): the class-header parser.
Phases, in source order: `classdef` keyword check (lines 300-302), blank
skip (306), optional parenthesized attribute list (309-355), blank skip
and class-name check (358-362), blank skip (363), optional `<`-introduced
superclass list or bare newline (366-388), and docstring (392-406).
Construction is all-or-nothing: any failure yields an error and no
`MatClass` value. -/
def matClassInit (name path : String) (tks : List Token) : Except PErr MatClass := do
  match tks with
  | [] => .error .indexErr
  | t :: rest =>
    if t ≠ ((TKind.keyword, "classdef") : Token) then .error .notAClass
    else do
      let tsA ← blanksRun rest
      let (attrs, tsB) ←
        match tsA with
        | [] => .error .indexErr
        | u :: ts1 =>
          if u = ((TKind.punctuation, "(") : Token) then attrLoop (ts1.length + 1) [] ts1
          else .ok (([] : AttrMap), u :: ts1)
      let tsC ← blanksRun tsB
      match tsC with
      | [] => .error .indexErr
      | u :: ts1 =>
        if u ≠ ((TKind.name, name) : Token) then .error (.badName u.2)
        else do
          let tsD ← blanksRun ts1
          let (bases, tsE) ←
            match tsD with
            | [] => .error .indexErr
            | v :: ts2 =>
              if v = ((TKind.operator, "<") : Token) then basesLoop (ts2.length + 1) [] ts2
              else if v = ((TKind.text, "\n") : Token) then .ok (([] : List String), ts2)
              else .ok (([] : List String), v :: ts2)
          let (ind, tsF) ← indentRun tsE
          let doc ←
            if ind ≠ 0 then (docLoop (tsF.length + 1) "" tsF).map (fun p => p.1)
            else .ok ""
          .ok ⟨name, path, tks, attrs, bases, doc, [], []⟩

/-- Embedding of `MatFunction.__init__` (lines 248-253).  Its first statement is
`super(MatClass, self).__init__(name)`; `self` is a `MatFunction`
instance, which is not an instance of `MatClass`, so the `super` call
raises `TypeError` before any field is assigned: every construction of a
`MatFunction` fails. -/
def matFunctionInit (_name _path : String) (_tks : List Token) : Except PErr MatFunction :=
  .error .superTypeErr

/-- The result of `MatObject.parse_mfile`: a function, a class, or `None`
for a script file. -/
inductive MatResult where
  | fn (f : MatFunction)
  | cls (c : MatClass)
deriving DecidableEq, Repr

/-- The dispatch of `MatObject.parse_mfile` (lines 93-100), starting from
the token list produced by the lexer: a stream whose first token is
`(Keyword, "function")` goes to `MatFunction`, `(Keyword, "classdef")`
goes to `MatClass`, anything else is a script and yields `none`.
An empty stream raises `IndexError` at the `tks[0]` read. -/
def parseMfile (name path : String) (tks : List Token) : Except PErr (Option MatResult) :=
  match tks with
  | [] => .error .indexErr
  | t :: _ =>
    if t = ((TKind.keyword, "function") : Token) then
      (matFunctionInit name path tks).map (fun f => some (.fn f))
    else if t = ((TKind.keyword, "classdef") : Token) then
      (matClassInit name path tks).map (fun c => some (.cls c))
    else .ok none

/-! ### Token-stream building blocks used in the statements -/

/-- A run of `n` blank tokens `(Token.Text, " ")`. -/
def spaces (n : Nat) : List Token := List.replicate n ((TKind.text, " ") : Token)

theorem spaces_zero : spaces 0 = [] := rfl

theorem spaces_succ (n : Nat) :
    spaces (n + 1) = ((TKind.text, " ") : Token) :: spaces n := rfl

/-! ### Scanner lemmas -/

theorem blanksRun_spaces (n : Nat) (t : Token) (ts : List Token)
    (h : t ≠ ((TKind.text, " ") : Token)) :
    blanksRun (spaces n ++ t :: ts) = .ok (t :: ts) := by
  induction n with
  | zero => simp [spaces_zero, blanksRun, h]
  | succ n ih => simpa [spaces_succ, blanksRun] using ih

theorem whitespaceCount_prefix (pre : List Token) (hpre : ∀ x ∈ pre, isWs x)
    (t : Token) (ht : ¬ isWs t) (ts : List Token) :
    whitespaceCount (pre ++ t :: ts) = .ok pre.length := by
  induction pre with
  | nil => simp [whitespaceCount, ht]
  | cons u pre ih =>
      have hu : isWs u := hpre u (by simp)
      have hrest : ∀ x ∈ pre, isWs x := fun x hx => hpre x (by simp [hx])
      simp [whitespaceCount, hu, ih hrest, Except.map]

theorem indentRun_spaces (n : Nat) (t : Token) (ts : List Token)
    (ht : ¬ isInd t) :
    indentRun (spaces n ++ t :: ts) = .ok (n, t :: ts) := by
  induction n with
  | zero => simp [spaces_zero, indentRun, ht]
  | succ n ih =>
      have hsp : isInd ((TKind.text, " ") : Token) := by simp [isInd]
      simp only [spaces] at ih ⊢
      simp [List.replicate_succ, indentRun, hsp, ih, Except.map]

theorem baseAccum_cons_nonws (acc : String) (b : Token) (ts : List Token) (hb : ¬ isWs b) :
    baseAccum acc (b :: ts) = baseAccum (acc ++ b.2) ts := by
  simp [baseAccum, whitespaceCount, hb, Bind.bind, Except.bind]

theorem baseAccum_stop (acc : String) (t : Token) (ts : List Token) (w : Nat)
    (hw : whitespaceCount (t :: ts) = .ok (w + 1)) :
    baseAccum acc (t :: ts) = .ok (acc, t :: ts) := by
  simp [baseAccum, hw, Bind.bind, Except.bind]

theorem dinsert_dinsert (m : AttrMap) (k : String) (v1 v2 : AttrVal) :
    dinsert (dinsert m k v1) k v2 = dinsert m k v2 := by
  induction m with
  | nil => simp [dinsert]
  | cons p m ih =>
      obtain ⟨k0, v0⟩ := p
      by_cases h : k0 = k <;> simp [dinsert, h, ih]

theorem dinsert_not_mem (m : AttrMap) (k : String) (v : AttrVal)
    (h : k ∉ m.map Prod.fst) :
    dinsert m k v = m ++ [(k, v)] := by
  induction m with
  | nil => simp [dinsert]
  | cons p m ih =>
      obtain ⟨k0, v0⟩ := p
      simp only [List.map_cons, List.mem_cons] at h
      push_neg at h
      simp [dinsert, Ne.symm h.1, ih h.2]

theorem attrLoop_skip (fuel : Nat) (attrs : AttrMap) (p : Nat) (w : Token) (ts : List Token)
    (hw : w ≠ ((TKind.text, " ") : Token)) (hw2 : w ≠ ((TKind.punctuation, ")") : Token)) :
    attrLoop (fuel + 1) attrs (spaces p ++ w :: ts) = attrLoop (fuel + 1) attrs (w :: ts) := by
  cases p with
  | zero => simp [spaces_zero]
  | succ p =>
      have hsp : ((TKind.text, " ") : Token) ≠ ((TKind.punctuation, ")") : Token) := by decide
      have h1 : blanksRun (((TKind.text, " ") : Token) :: (spaces p ++ w :: ts)) = .ok (w :: ts) := by
        have h0 := blanksRun_spaces (p + 1) w ts hw
        simpa [spaces, List.replicate_succ] using h0
      have h2 : blanksRun (w :: ts) = .ok (w :: ts) := blanksRun_spaces 0 w ts hw
      rw [spaces_succ, List.cons_append]
      simp only [attrLoop]
      rw [if_neg hsp, if_neg hw2, h1, h2]

structure AttrSpec where
  pre : Nat
  aname : String
  preEq : Nat
  preVal : Nat
  val : Bool
  post : Nat
deriving DecidableEq, Repr

def bstr : Bool → String
  | true => "true"
  | false => "false"

def specToks (s : AttrSpec) : List Token :=
  spaces s.pre ++ ((TKind.name, s.aname) : Token) ::
    (spaces s.preEq ++ ((TKind.punctuation, "=") : Token) ::
      (spaces s.preVal ++ ((TKind.name, bstr s.val) : Token) :: spaces s.post))

theorem attrLoop_spec_step (fuel : Nat) (attrs : AttrMap) (s : AttrSpec)
    (hrec : (cls_attr_types.lookup s.aname).isSome) (u : Token) (tail : List Token)
    (hu : u ≠ ((TKind.text, " ") : Token)) :
    attrLoop (fuel + 1) attrs (specToks s ++ u :: tail) =
      if u = ((TKind.punctuation, ",") : Token) then
        attrLoop fuel (dinsert attrs s.aname (.vstr (bstr s.val))) tail
      else
        attrLoop fuel (dinsert attrs s.aname (.vstr (bstr s.val))) (u :: tail) := by
  obtain ⟨p, a, q, r, v, w⟩ := s
  have hname_blank : ((TKind.name, a) : Token) ≠ ((TKind.text, " ") : Token) := by simp
  have hname_paren : ((TKind.name, a) : Token) ≠ ((TKind.punctuation, ")") : Token) := by simp
  have hval_blank : ((TKind.name, bstr v) : Token) ≠ ((TKind.text, " ") : Token) := by simp
  have heq_blank : ((TKind.punctuation, "=") : Token) ≠ ((TKind.text, " ") : Token) := by decide
  simp only [specToks, List.append_assoc, List.cons_append]
  rw [attrLoop_skip fuel attrs p _ _ hname_blank hname_paren]
  have hb1 : blanksRun (((TKind.name, a) : Token) :: (spaces q ++ ((TKind.punctuation, "=") : Token) :: (spaces r ++ ((TKind.name, bstr v) : Token) :: (spaces w ++ u :: tail)))) = .ok (((TKind.name, a) : Token) :: (spaces q ++ ((TKind.punctuation, "=") : Token) :: (spaces r ++ ((TKind.name, bstr v) : Token) :: (spaces w ++ u :: tail)))) := by
    simpa using blanksRun_spaces 0 _ _ hname_blank
  have hb2 := blanksRun_spaces q _ (spaces r ++ ((TKind.name, bstr v) : Token) :: (spaces w ++ u :: tail)) heq_blank
  have hb3 := blanksRun_spaces r _ (spaces w ++ u :: tail) hval_blank
  have hb4 := blanksRun_spaces w _ tail hu
  simp only [attrLoop, if_neg hname_paren, hb1, hb2, hb3, hb4, Bind.bind, Except.bind]
  cases v <;> simp [bstr, hrec, dinsert_dinsert]

def attrsToks : List AttrSpec → List Token
  | [] => []
  | [s] => specToks s
  | s :: s2 :: rest => specToks s ++ ((TKind.punctuation, ",") : Token) :: attrsToks (s2 :: rest)

theorem specToks_length_pos (s : AttrSpec) : 1 ≤ (specToks s).length := by
  simp [specToks]
  omega

theorem attrsToks_length_ge (specs : List AttrSpec) :
    specs.length ≤ (attrsToks specs).length := by
  induction specs with
  | nil => simp [attrsToks]
  | cons s specs ih =>
      cases specs with
      | nil => simpa [attrsToks] using specToks_length_pos s
      | cons s2 rest =>
          have h1 := specToks_length_pos s
          simp only [List.length_cons] at ih ⊢
          simp only [attrsToks, List.length_append, List.length_cons]
          omega

theorem attrLoop_chain (specs : List AttrSpec) :
    ∀ fuel attrs rest, (∀ s ∈ specs, (cls_attr_types.lookup s.aname).isSome) →
      specs.length + 1 ≤ fuel →
      attrLoop fuel attrs (attrsToks specs ++ ((TKind.punctuation, ")") : Token) :: rest) =
        .ok (specs.foldl (fun m s => dinsert m s.aname (.vstr (bstr s.val))) attrs, rest) := by
  induction specs with
  | nil =>
      intro fuel attrs rest _ hf
      obtain ⟨f, rfl⟩ : ∃ f, fuel = f + 1 := ⟨fuel - 1, by omega⟩
      simp [attrsToks, attrLoop]
  | cons s specs ih =>
      intro fuel attrs rest hrec hf
      obtain ⟨f, rfl⟩ : ∃ f, fuel = f + 1 := ⟨fuel - 1, by omega⟩
      have hs : (cls_attr_types.lookup s.aname).isSome := hrec s (by simp)
      have hrest : ∀ x ∈ specs, (cls_attr_types.lookup x.aname).isSome :=
        fun x hx => hrec x (by simp [hx])
      cases specs with
      | nil =>
          have hcp : ((TKind.punctuation, ")") : Token) ≠ ((TKind.text, " ") : Token) := by decide
          have := attrLoop_spec_step f attrs s hs ((TKind.punctuation, ")") : Token) rest hcp
          rw [if_neg (by decide)] at this
          simp only [attrsToks]
          rw [this]
          obtain ⟨g, rfl⟩ : ∃ g, f = g + 1 := ⟨f - 1, by simp at hf; omega⟩
          simp [attrLoop]
      | cons s2 rest2 =>
          have hcm : ((TKind.punctuation, ",") : Token) ≠ ((TKind.text, " ") : Token) := by decide
          simp only [attrsToks, List.append_assoc, List.cons_append]
          have := attrLoop_spec_step f attrs s hs ((TKind.punctuation, ",") : Token)
            (attrsToks (s2 :: rest2) ++ ((TKind.punctuation, ")") : Token) :: rest) hcm
          rw [if_pos rfl] at this
          rw [this, ih f _ rest hrest (by simp only [List.length_cons] at hf ⊢; omega)]
          simp

def attrsToksPre : List AttrSpec → List Token → List Token
  | [], tail => tail
  | s :: ss, tail => specToks s ++ ((TKind.punctuation, ",") : Token) :: attrsToksPre ss tail

theorem attrLoop_chain_err (specs : List AttrSpec) :
    ∀ fuel attrs p bad suffix,
      (∀ s ∈ specs, (cls_attr_types.lookup s.aname).isSome) →
      cls_attr_types.lookup bad = none →
      specs.length + 1 ≤ fuel →
      attrLoop fuel attrs
          (attrsToksPre specs (spaces p ++ ((TKind.name, bad) : Token) :: suffix)) =
        .error (.unknownAttr bad) := by
  induction specs with
  | nil =>
      intro fuel attrs p bad suffix _ hbad hf
      obtain ⟨f, rfl⟩ : ∃ f, fuel = f + 1 := ⟨fuel - 1, by omega⟩
      have hnb : ((TKind.name, bad) : Token) ≠ ((TKind.text, " ") : Token) := by simp
      have hnp : ((TKind.name, bad) : Token) ≠ ((TKind.punctuation, ")") : Token) := by simp
      simp only [attrsToksPre]
      rw [attrLoop_skip f attrs p _ _ hnb hnp]
      have hb : blanksRun (((TKind.name, bad) : Token) :: suffix) =
          .ok (((TKind.name, bad) : Token) :: suffix) := by
        simpa using blanksRun_spaces 0 _ suffix hnb
      simp [attrLoop, hnp, hb, Bind.bind, Except.bind, hbad]
  | cons s specs ih =>
      intro fuel attrs p bad suffix hrec hbad hf
      obtain ⟨f, rfl⟩ : ∃ f, fuel = f + 1 := ⟨fuel - 1, by omega⟩
      have hs : (cls_attr_types.lookup s.aname).isSome := hrec s (by simp)
      have hrest : ∀ x ∈ specs, (cls_attr_types.lookup x.aname).isSome :=
        fun x hx => hrec x (by simp [hx])
      have hcm : ((TKind.punctuation, ",") : Token) ≠ ((TKind.text, " ") : Token) := by decide
      simp only [attrsToksPre, List.append_assoc, List.cons_append]
      have := attrLoop_spec_step f attrs s hs ((TKind.punctuation, ",") : Token)
        (attrsToksPre specs (spaces p ++ ((TKind.name, bad) : Token) :: suffix)) hcm
      rw [if_pos rfl] at this
      rw [this, ih f _ p bad suffix hrest hbad
        (by simp only [List.length_cons] at hf ⊢; omega)]

theorem foldl_dinsert_map (specs : List AttrSpec) :
    ∀ m, (∀ s ∈ specs, s.aname ∉ m.map Prod.fst) → (specs.map AttrSpec.aname).Nodup →
      specs.foldl (fun m s => dinsert m s.aname (.vstr (bstr s.val))) m =
        m ++ specs.map (fun s => (s.aname, AttrVal.vstr (bstr s.val))) := by
  induction specs with
  | nil => intro m _ _; simp
  | cons s specs ih =>
      intro m hm hnd
      simp only [List.map_cons, List.nodup_cons] at hnd
      have hmem : s.aname ∉ m.map Prod.fst := hm s (by simp)
      have hins : dinsert m s.aname (.vstr (bstr s.val)) = m ++ [(s.aname, .vstr (bstr s.val))] :=
        dinsert_not_mem m s.aname _ hmem
      simp only [List.foldl_cons]
      rw [hins]
      have harg : ∀ x ∈ specs,
          x.aname ∉ (m ++ [(s.aname, AttrVal.vstr (bstr s.val))]).map Prod.fst := by
        intro x hx
        have hne : x.aname ≠ s.aname := by
          intro he
          exact hnd.1 (he ▸ List.mem_map_of_mem AttrSpec.aname hx)
        simp only [List.map_append, List.mem_append]
        push_neg
        exact ⟨hm x (by simp [hx]), by simpa using hne⟩
      rw [ih _ harg hnd.2]
      simp

theorem blanksRun_cons (t : Token) (ts : List Token) (h : t ≠ ((TKind.text, " ") : Token)) :
    blanksRun (t :: ts) = .ok (t :: ts) := by
  simp [blanksRun, h]

theorem indentRun_cons (t : Token) (ts : List Token) (h : ¬ isInd t) :
    indentRun (t :: ts) = .ok (0, t :: ts) := by
  simp [indentRun, h]

/-- C1 (amended): for every token stream `classdef`, blanks, the expected
name, blanks, a newline, followed by at least one further token the first of
which is not a space/tab text token, `MatClass` construction succeeds and the
resulting class has empty `attrs`, empty `bases` and empty docstring.  (The
amendment adds the trailing-token requirement: with nothing after the newline
the docstring phase's `_indent` read raises `IndexError`, see
`C1_counterexample`.) -/
theorem C1_theorem (name path : String) (n m : Nat) (stopper : Token)
    (hst : ¬ isInd stopper) (rest2 : List Token) :
    matClassInit name path
        (((TKind.keyword, "classdef") : Token) :: (spaces n ++ ((TKind.name, name) : Token) ::
          (spaces m ++ ((TKind.text, "\n") : Token) :: stopper :: rest2))) =
      .ok ⟨name, path,
        ((TKind.keyword, "classdef") : Token) :: (spaces n ++ ((TKind.name, name) : Token) ::
          (spaces m ++ ((TKind.text, "\n") : Token) :: stopper :: rest2)),
        [], [], "", [], []⟩ := by
  have hnb : ((TKind.name, name) : Token) ≠ ((TKind.text, " ") : Token) := by simp
  have hb1 := blanksRun_spaces n ((TKind.name, name) : Token)
    (spaces m ++ ((TKind.text, "\n") : Token) :: stopper :: rest2) hnb
  have hb1b := blanksRun_cons ((TKind.name, name) : Token)
    (spaces m ++ ((TKind.text, "\n") : Token) :: stopper :: rest2) hnb
  have hb2 := blanksRun_spaces m ((TKind.text, "\n") : Token) (stopper :: rest2) (by decide)
  have hind := indentRun_cons stopper rest2 hst
  simp [matClassInit, hb1, hb1b, hb2, hind, Bind.bind, Except.bind]

/-- C3 (confirmed): for every parenthesized attribute list made of recognized
attribute names, each assigned a bare `true`/`false` name token after `=`, and
with arbitrary blank-run widths around the separators, construction succeeds
and `attrs` maps exactly those names, in order, to exactly those boolean
values (stored as the strings "true"/"false", as line 334 does). -/
theorem C3_theorem (name path : String) (specs : List AttrSpec)
    (hrec : ∀ s ∈ specs, (cls_attr_types.lookup s.aname).isSome)
    (hnd : (specs.map AttrSpec.aname).Nodup)
    (n0 n1 n2 : Nat) (stopper : Token) (hst : ¬ isInd stopper) (rest2 : List Token) :
    matClassInit name path
        (((TKind.keyword, "classdef") : Token) :: (spaces n0 ++
          ((TKind.punctuation, "(") : Token) :: (attrsToks specs ++
            ((TKind.punctuation, ")") : Token) :: (spaces n1 ++
              ((TKind.name, name) : Token) :: (spaces n2 ++
                ((TKind.text, "\n") : Token) :: stopper :: rest2))))) =
      .ok ⟨name, path,
        ((TKind.keyword, "classdef") : Token) :: (spaces n0 ++
          ((TKind.punctuation, "(") : Token) :: (attrsToks specs ++
            ((TKind.punctuation, ")") : Token) :: (spaces n1 ++
              ((TKind.name, name) : Token) :: (spaces n2 ++
                ((TKind.text, "\n") : Token) :: stopper :: rest2)))),
        specs.map (fun s => (s.aname, AttrVal.vstr (bstr s.val))), [], "", [], []⟩ := by
  have hnb : ((TKind.name, name) : Token) ≠ ((TKind.text, " ") : Token) := by simp
  have hb1 := blanksRun_spaces n0 ((TKind.punctuation, "(") : Token)
    (attrsToks specs ++ ((TKind.punctuation, ")") : Token) :: (spaces n1 ++
      ((TKind.name, name) : Token) :: (spaces n2 ++
        ((TKind.text, "\n") : Token) :: stopper :: rest2))) (by decide)
  have hfuel : specs.length + 1 ≤
      (attrsToks specs ++ ((TKind.punctuation, ")") : Token) :: (spaces n1 ++
        ((TKind.name, name) : Token) :: (spaces n2 ++
          ((TKind.text, "\n") : Token) :: stopper :: rest2))).length + 1 := by
    have := attrsToks_length_ge specs
    simp only [List.length_append, List.length_cons]
    omega
  have hchain := attrLoop_chain specs _ []
    (spaces n1 ++ ((TKind.name, name) : Token) :: (spaces n2 ++
      ((TKind.text, "\n") : Token) :: stopper :: rest2)) hrec hfuel
  have hfold := foldl_dinsert_map specs [] (by simp) hnd
  have hb2 := blanksRun_spaces n1 ((TKind.name, name) : Token)
    (spaces n2 ++ ((TKind.text, "\n") : Token) :: stopper :: rest2) hnb
  have hb3 := blanksRun_spaces n2 ((TKind.text, "\n") : Token) (stopper :: rest2) (by decide)
  have hind := indentRun_cons stopper rest2 hst
  simp only [List.length_append, List.length_cons] at hchain
  simp [matClassInit, hb1, hchain, hfold, hb2, hb3, hind, Bind.bind, Except.bind]

theorem attrsToksPre_length (specs : List AttrSpec) (tail : List Token) :
    tail.length + specs.length ≤ (attrsToksPre specs tail).length := by
  induction specs with
  | nil => simp [attrsToksPre]
  | cons s specs ih =>
      have := specToks_length_pos s
      simp only [attrsToksPre, List.length_append, List.length_cons]
      omega

/-- C4 (confirmed): an attribute list whose first unrecognized name follows
any run of recognized boolean attributes fails with `UnknownAttribute`
carrying the offending name, and the result does not depend on any token
after the offending one (the suffix is universally quantified). -/
theorem C4_theorem (name path : String) (specs : List AttrSpec)
    (hrec : ∀ s ∈ specs, (cls_attr_types.lookup s.aname).isSome)
    (bad : String) (hbad : cls_attr_types.lookup bad = none)
    (n0 p : Nat) (suffix : List Token) :
    matClassInit name path
        (((TKind.keyword, "classdef") : Token) :: (spaces n0 ++
          ((TKind.punctuation, "(") : Token) ::
            attrsToksPre specs (spaces p ++ ((TKind.name, bad) : Token) :: suffix))) =
      .error (.unknownAttr bad) := by
  have hb1 := blanksRun_spaces n0 ((TKind.punctuation, "(") : Token)
    (attrsToksPre specs (spaces p ++ ((TKind.name, bad) : Token) :: suffix)) (by decide)
  have hfuel : specs.length + 1 ≤
      (attrsToksPre specs (spaces p ++ ((TKind.name, bad) : Token) :: suffix)).length + 1 := by
    have := attrsToksPre_length specs (spaces p ++ ((TKind.name, bad) : Token) :: suffix)
    omega
  have hchain := attrLoop_chain_err specs _ [] p bad suffix hrec hbad hfuel
  simp [matClassInit, hb1, hchain, Bind.bind, Except.bind]

structure BaseSpec where
  pre : Nat
  base : String
  post : Nat
deriving DecidableEq, Repr

def basesToks : List BaseSpec → List Token
  | [] => []
  | [s] => spaces s.pre ++ ((TKind.name, s.base) : Token) ::
      (spaces s.post ++ [((TKind.text, "\n") : Token)])
  | s :: s2 :: rest => spaces s.pre ++ ((TKind.name, s.base) : Token) ::
      (spaces s.post ++ ((TKind.operator, "&") : Token) :: basesToks (s2 :: rest))

def basesChainOK : List BaseSpec → Prop
  | [] => True
  | [s] => s.base ≠ ""
  | s :: s2 :: rest => s.base ≠ "" ∧ 1 ≤ s.post ∧ basesChainOK (s2 :: rest)

instance basesChainOKDec : (specs : List BaseSpec) → Decidable (basesChainOK specs)
  | [] => inferInstanceAs (Decidable True)
  | [s] => inferInstanceAs (Decidable (s.base ≠ ""))
  | s :: s2 :: rest =>
      have : Decidable (basesChainOK (s2 :: rest)) := basesChainOKDec (s2 :: rest)
      inferInstanceAs (Decidable (s.base ≠ "" ∧ 1 ≤ s.post ∧ basesChainOK (s2 :: rest)))

theorem basesLoop_skip (fuel : Nat) (bases : List String) (p : Nat) (w : Token)
    (ts : List Token) (hw : w ≠ ((TKind.text, " ") : Token))
    (hw2 : w ≠ ((TKind.text, "\n") : Token)) :
    basesLoop (fuel + 1) bases (spaces p ++ w :: ts) = basesLoop (fuel + 1) bases (w :: ts) := by
  cases p with
  | zero => simp [spaces_zero]
  | succ p =>
      have hsp : ((TKind.text, " ") : Token) ≠ ((TKind.text, "\n") : Token) := by decide
      have h1 : blanksRun (((TKind.text, " ") : Token) :: (spaces p ++ w :: ts)) = .ok (w :: ts) := by
        have h0 := blanksRun_spaces (p + 1) w ts hw
        simpa [spaces, List.replicate_succ] using h0
      have h2 : blanksRun (w :: ts) = .ok (w :: ts) := blanksRun_cons w ts hw
      rw [spaces_succ, List.cons_append]
      simp only [basesLoop]
      rw [if_neg hsp, if_neg hw2, h1, h2]

theorem baseAccum_name (acc A : String) (pre : List Token) (hpre : ∀ x ∈ pre, isWs x)
    (k : Nat) (hk : pre.length = k + 1) (t : Token) (ht : ¬ isWs t) (ts : List Token) :
    baseAccum acc (((TKind.name, A) : Token) :: (pre ++ t :: ts)) =
      .ok (acc ++ A, pre ++ t :: ts) := by
  rw [baseAccum_cons_nonws _ _ _ (by simp [isWs])]
  cases pre with
  | nil => simp at hk
  | cons u pre' =>
      have hw := whitespaceCount_prefix (u :: pre') hpre t ht ts
      rw [hk] at hw
      exact baseAccum_stop (acc ++ A) u (pre' ++ t :: ts) k (by simpa using hw)

theorem basesLoop_chain (specs : List BaseSpec) :
    ∀ fuel acc r rest2, specs ≠ [] → basesChainOK specs → ¬ isWs r →
      specs.length + 1 ≤ fuel →
      basesLoop fuel acc (basesToks specs ++ r :: rest2) =
        .ok (acc ++ specs.map BaseSpec.base, r :: rest2) := by
  induction specs with
  | nil => intro fuel acc r rest2 hne; exact absurd rfl hne
  | cons s specs ih =>
      intro fuel acc r rest2 _ hok hr hf
      obtain ⟨f, rfl⟩ : ∃ f, fuel = f + 1 := ⟨fuel - 1, by omega⟩
      have hnb : ((TKind.name, s.base) : Token) ≠ ((TKind.text, " ") : Token) := by simp
      have hnn : ((TKind.name, s.base) : Token) ≠ ((TKind.text, "\n") : Token) := by simp
      have hnlb : ((TKind.text, "\n") : Token) ≠ ((TKind.text, " ") : Token) := by decide
      have hemp : ("" : String) ++ s.base = s.base := by simp
      cases specs with
      | nil =>
          have hbase : s.base ≠ "" := hok
          obtain ⟨g, rfl⟩ : ∃ g, f = g + 1 := ⟨f - 1, by simp at hf; omega⟩
          have hpre : ∀ x ∈ spaces s.post ++ [((TKind.text, "\n") : Token)], isWs x := by
            intro x hx
            simp only [List.mem_append, List.mem_singleton, spaces, List.mem_replicate] at hx
            rcases hx with ⟨_, rfl⟩ | rfl <;> simp [isWs]
          have hlen : (spaces s.post ++ [((TKind.text, "\n") : Token)]).length = s.post + 1 := by
            simp [spaces]
          have hacc := baseAccum_name "" s.base (spaces s.post ++ [((TKind.text, "\n") : Token)])
            hpre s.post hlen r hr rest2
          rw [hemp] at hacc
          simp only [List.append_assoc, List.singleton_append] at hacc
          simp only [basesToks, List.nil_append, List.append_assoc, List.cons_append,
            List.singleton_append]
          rw [basesLoop_skip (g + 1) acc s.pre _ _ hnb hnn]
          cases hpost : s.post with
          | zero =>
              rw [hpost] at hacc
              simp only [spaces_zero, List.nil_append] at hacc
              have hb2 : blanksRun (((TKind.text, "\n") : Token) :: r :: rest2) =
                  .ok (((TKind.text, "\n") : Token) :: r :: rest2) :=
                blanksRun_cons _ _ hnlb
              simp [basesLoop, hnn, blanksRun_cons _ _ hnb, hacc, hb2, hbase,
                Bind.bind, Except.bind, spaces_zero]
          | succ k =>
              rw [hpost] at hacc
              simp only [spaces_succ, List.cons_append] at hacc
              have hb2 := blanksRun_spaces k ((TKind.text, "\n") : Token) (r :: rest2) hnlb
              simp [basesLoop, hnn, blanksRun_cons _ _ hnb, hacc, hb2, hbase,
                Bind.bind, Except.bind, spaces_succ]
      | cons s2 rest =>
          obtain ⟨hbase, hpost1, hok2⟩ := hok
          obtain ⟨k, hpost⟩ : ∃ k, s.post = k + 1 := ⟨s.post - 1, by omega⟩
          have hamp : ¬ isWs ((TKind.operator, "&") : Token) := by simp [isWs]
          have hpre : ∀ x ∈ spaces s.post, isWs x := by
            intro x hx
            simp only [spaces, List.mem_replicate] at hx
            rw [hx.2]
            simp [isWs]
          have hlen : (spaces s.post).length = k + 1 := by simp [spaces, hpost]
          have hacc := baseAccum_name "" s.base (spaces s.post) hpre k hlen
            ((TKind.operator, "&") : Token) hamp
            (basesToks (s2 :: rest) ++ r :: rest2)
          rw [hemp] at hacc
          simp only [basesToks, List.append_assoc, List.cons_append]
          rw [basesLoop_skip f acc s.pre _ _ hnb hnn]
          rw [hpost] at hacc
          simp only [spaces_succ, List.cons_append] at hacc
          have hb2 := blanksRun_spaces k ((TKind.operator, "&") : Token)
            (basesToks (s2 :: rest) ++ r :: rest2) (by decide)
          have hih := ih f (acc ++ [s.base]) r rest2 (by simp) hok2 hr
            (by simp only [List.length_cons] at hf ⊢; omega)
          obtain ⟨g, rfl⟩ : ∃ g, f = g + 1 := ⟨f - 1, by simp at hf; omega⟩
          simp only [basesLoop]
          rw [if_neg hnn, blanksRun_cons _ _ hnb]
          rw [hpost]
          simp only [spaces_succ, List.cons_append]
          simp [hacc, hb2, hbase, hih, Bind.bind, Except.bind]

theorem basesToks_length_ge (specs : List BaseSpec) :
    specs.length ≤ (basesToks specs).length := by
  induction specs with
  | nil => simp [basesToks]
  | cons s specs ih =>
      cases specs with
      | nil => simp [basesToks]; omega
      | cons s2 rest =>
          simp only [List.length_cons] at ih ⊢
          simp only [basesToks, List.length_append, List.length_cons]
          omega

/-- C5 (amended): for a superclass list `< A & B & C` terminated by a
newline, with at least one blank between each name and the following `&`
(`basesChainOK`) and arbitrary blank-run widths elsewhere, `bases` equals the
declared names in declaration order.  (The amendment requires the runs before
each `&` to be non-empty: with a zero-width run the name accumulation of
lines 372-375 glues `A&B` into one name, see `C5_counterexample`.) -/
theorem C5_theorem (name path : String) (specs : List BaseSpec)
    (hne : specs ≠ []) (hok : basesChainOK specs)
    (n0 n1 : Nat) (r : Token) (hr : ¬ isWs r) (rest2 : List Token) :
    matClassInit name path
        (((TKind.keyword, "classdef") : Token) :: (spaces n0 ++
          ((TKind.name, name) : Token) :: (spaces n1 ++
            ((TKind.operator, "<") : Token) :: (basesToks specs ++ r :: rest2)))) =
      .ok ⟨name, path,
        ((TKind.keyword, "classdef") : Token) :: (spaces n0 ++
          ((TKind.name, name) : Token) :: (spaces n1 ++
            ((TKind.operator, "<") : Token) :: (basesToks specs ++ r :: rest2))),
        [], specs.map BaseSpec.base, "", [], []⟩ := by
  have hnb : ((TKind.name, name) : Token) ≠ ((TKind.text, " ") : Token) := by simp
  have hb1 := blanksRun_spaces n0 ((TKind.name, name) : Token)
    (spaces n1 ++ ((TKind.operator, "<") : Token) :: (basesToks specs ++ r :: rest2)) hnb
  have hb1b := blanksRun_cons ((TKind.name, name) : Token)
    (spaces n1 ++ ((TKind.operator, "<") : Token) :: (basesToks specs ++ r :: rest2)) hnb
  have hb2 := blanksRun_spaces n1 ((TKind.operator, "<") : Token)
    (basesToks specs ++ r :: rest2) (by decide)
  have hfuel : specs.length + 1 ≤ (basesToks specs ++ r :: rest2).length + 1 := by
    have := basesToks_length_ge specs
    simp only [List.length_append, List.length_cons]
    omega
  have hchain := basesLoop_chain specs _ [] r rest2 hne hok hr hfuel
  have hind : ¬ isInd r := by
    intro h
    exact hr ⟨h.1, by rcases h.2 with h2 | h2; exacts [Or.inl h2, Or.inr (Or.inr h2)]⟩
  have hindr := indentRun_cons r rest2 hind
  simp only [List.length_append, List.length_cons] at hchain
  simp [matClassInit, hb1, hb1b, hb2, hchain, hindr, Bind.bind, Except.bind]

structure DocLine where
  ind : Nat
  txt : String
deriving DecidableEq, Repr

def docToksAfter : List DocLine → List Token
  | [] => []
  | l :: ls => spaces l.ind ++ ((TKind.comment, l.txt) : Token) ::
      ((TKind.text, "\n") : Token) :: docToksAfter ls

theorem docToksAfter_length_ge (ls : List DocLine) :
    ls.length ≤ (docToksAfter ls).length := by
  induction ls with
  | nil => simp [docToksAfter]
  | cons l ls ih =>
      simp only [docToksAfter, List.length_append, List.length_cons, List.length_cons]
      omega

theorem docLoop_chain (ls : List DocLine) :
    ∀ fuel doc c r rest2, r.1 ≠ TKind.comment → ¬ isInd r → ls.length + 2 ≤ fuel →
      docLoop fuel doc (((TKind.comment, c) : Token) :: ((TKind.text, "\n") : Token) ::
        (docToksAfter ls ++ r :: rest2)) =
      .ok (ls.foldl (fun d l => d ++ l.txt ++ "\n") (doc ++ c ++ "\n"), r :: rest2) := by
  induction ls with
  | nil =>
      intro fuel doc c r rest2 hc hind hf
      obtain ⟨f, rfl⟩ : ∃ f, fuel = f + 1 := ⟨fuel - 1, by omega⟩
      obtain ⟨g, rfl⟩ : ∃ g, f = g + 1 := ⟨f - 1, by omega⟩
      have hir := indentRun_cons r rest2 hind
      simp [docLoop, docToksAfter, hir, hc, Bind.bind, Except.bind]
  | cons l ls ih =>
      intro fuel doc c r rest2 hc hind hf
      obtain ⟨f, rfl⟩ : ∃ f, fuel = f + 1 := ⟨fuel - 1, by omega⟩
      have hcm : ¬ isInd ((TKind.comment, l.txt) : Token) := by simp [isInd]
      have hir := indentRun_spaces l.ind ((TKind.comment, l.txt) : Token)
        (((TKind.text, "\n") : Token) :: (docToksAfter ls ++ r :: rest2)) hcm
      have hih := ih f (doc ++ c ++ "\n") l.txt r rest2 hc hind
        (by simp only [List.length_cons] at hf ⊢; omega)
      simp only [docToksAfter, List.append_assoc, List.cons_append]
      simp only [docLoop]
      simp [hir, hih, Bind.bind, Except.bind]

/-- C6 (amended): for a class header followed by an indented comment line
and any further comment lines each ending in a newline token, the docstring
is the concatenation of every comment text with its trailing newline
preserved, and the phase stops at the first token that is not a comment —
regardless of that line's indentation.  (The amendment drops the claim's
"stops at the first non-indented line": the loop of lines 396-406 only tests
for `Token.Comment`, see `C6_counterexample`.) -/
theorem C6_theorem (name path : String) (n0 n1 i0 : Nat) (c : String)
    (ls : List DocLine) (r : Token) (hc : r.1 ≠ TKind.comment) (hind : ¬ isInd r)
    (rest2 : List Token) :
    matClassInit name path
        (((TKind.keyword, "classdef") : Token) :: (spaces n0 ++
          ((TKind.name, name) : Token) :: (spaces n1 ++
            ((TKind.text, "\n") : Token) :: (spaces (i0 + 1) ++
              ((TKind.comment, c) : Token) :: ((TKind.text, "\n") : Token) ::
                (docToksAfter ls ++ r :: rest2))))) =
      .ok ⟨name, path,
        ((TKind.keyword, "classdef") : Token) :: (spaces n0 ++
          ((TKind.name, name) : Token) :: (spaces n1 ++
            ((TKind.text, "\n") : Token) :: (spaces (i0 + 1) ++
              ((TKind.comment, c) : Token) :: ((TKind.text, "\n") : Token) ::
                (docToksAfter ls ++ r :: rest2)))),
        [], [], ls.foldl (fun d l => d ++ l.txt ++ "\n") (c ++ "\n"), [], []⟩ := by
  have hnb : ((TKind.name, name) : Token) ≠ ((TKind.text, " ") : Token) := by simp
  have hb1 := blanksRun_spaces n0 ((TKind.name, name) : Token)
    (spaces n1 ++ ((TKind.text, "\n") : Token) :: (spaces (i0 + 1) ++
      ((TKind.comment, c) : Token) :: ((TKind.text, "\n") : Token) ::
        (docToksAfter ls ++ r :: rest2))) hnb
  have hb1b := blanksRun_cons ((TKind.name, name) : Token)
    (spaces n1 ++ ((TKind.text, "\n") : Token) :: (spaces (i0 + 1) ++
      ((TKind.comment, c) : Token) :: ((TKind.text, "\n") : Token) ::
        (docToksAfter ls ++ r :: rest2))) hnb
  have hb2 := blanksRun_spaces n1 ((TKind.text, "\n") : Token)
    (spaces (i0 + 1) ++ ((TKind.comment, c) : Token) :: ((TKind.text, "\n") : Token) ::
      (docToksAfter ls ++ r :: rest2)) (by decide)
  have hcm : ¬ isInd ((TKind.comment, c) : Token) := by simp [isInd]
  have hir := indentRun_spaces (i0 + 1) ((TKind.comment, c) : Token)
    (((TKind.text, "\n") : Token) :: (docToksAfter ls ++ r :: rest2)) hcm
  have hfuel : ls.length + 2 ≤
      ((((TKind.text, "\n") : Token) :: (docToksAfter ls ++ r :: rest2)).length + 1) + 1 := by
    have := docToksAfter_length_ge ls
    simp only [List.length_append, List.length_cons]
    omega
  have hchain := docLoop_chain ls _ "" c r rest2 hc hind hfuel
  have hemp : ("" : String) ++ c = c := by simp
  rw [hemp] at hchain
  simp only [List.length_append, List.length_cons] at hchain
  simp [matClassInit, hb1, hb1b, hb2, hir, hchain, Bind.bind, Except.bind, Except.map]

theorem basesLoop_no_empty (fuel : Nat) :
    ∀ acc ts bs ts', basesLoop fuel acc ts = .ok (bs, ts') → "" ∉ acc → "" ∉ bs := by
  induction fuel with
  | zero => intro acc ts bs ts' h; simp [basesLoop] at h
  | succ fuel ih =>
      intro acc ts bs ts' h hacc
      match ts with
      | [] => simp [basesLoop] at h
      | t :: rest =>
          simp only [basesLoop, Bind.bind, Except.bind] at h
          split at h
          · rw [Except.ok.injEq] at h
            obtain ⟨rfl, rfl⟩ : bs = acc ∧ ts' = rest := by
              constructor <;> simp [Prod.ext_iff] at h <;> tauto
            exact hacc
          · cases hbr : blanksRun (t :: rest) with
            | error e => rw [hbr] at h; cases h
            | ok ts0 =>
                rw [hbr] at h
                simp only at h
                cases hba : baseAccum "" ts0 with
                | error e => rw [hba] at h; cases h
                | ok p =>
                    rw [hba] at h
                    simp only at h
                    obtain ⟨bn, ts1⟩ := p
                    match ts1 with
                    | [] => cases h
                    | u :: ts2 =>
                        simp only at h
                        cases hb4 : blanksRun (if u ≠ ((TKind.text, "\n") : Token) then ts2
                            else u :: ts2) with
                        | error e => rw [hb4] at h; cases h
                        | ok ts4 =>
                            rw [hb4] at h
                            simp only at h
                            match ts4 with
                            | [] => cases h
                            | w :: ts5 =>
                                simp only at h
                                split at h <;>
                                  refine ih _ _ _ _ h ?_ <;>
                                  split <;>
                                  simp [hacc] <;>
                                  intro hemp <;>
                                  simp_all

theorem basesLoop_no_empty_pair (fuel : Nat) (acc : List String) (ts : List Token)
    (p : List String × List Token) (h : basesLoop fuel acc ts = .ok p) (hacc : "" ∉ acc) :
    "" ∉ p.1 := by
  obtain ⟨bs, ts'⟩ := p
  exact basesLoop_no_empty fuel acc ts bs ts' h hacc

theorem matClassInit_ok_shape (name path : String) (tks : List Token) (c : MatClass)
    (h : matClassInit name path tks = .ok c) :
    c.name = name ∧ c.path = path ∧ c.tokens = tks ∧ c.properties = [] ∧ c.methods = [] ∧
      "" ∉ c.bases := by
  match tks with
  | [] => simp [matClassInit] at h
  | t :: rest =>
      simp only [matClassInit, Bind.bind, Except.bind, Except.map] at h
      repeat' split at h
      any_goals cases h
      all_goals refine ⟨rfl, rfl, rfl, rfl, rfl, ?_⟩
      all_goals solve
        | simp
        | (apply basesLoop_no_empty_pair <;> first | assumption | simp)

/-! ### Claim theorems: counterexamples, remaining claims, witnesses -/

/-- C1 (counterexample to the claim as stated): the four-token stream of
`classdef Foo\n` begins with the keyword, the expected name and a newline and
has no attributes, superclasses or comments, yet construction fails with
`IndexError` (the docstring phase's `_indent` reads past the end), so the
claim's "construction succeeds" is false without a trailing token. -/
theorem C1_counterexample :
    matClassInit "Foo" "p"
      [((TKind.keyword, "classdef") : Token), (TKind.text, " "),
       (TKind.name, "Foo"), (TKind.text, "\n")] = .error .indexErr := rfl

/-- C1 witness: concrete instance of `C1_theorem`. -/
theorem C1_witness :
    ¬ isInd ((TKind.keyword, "end") : Token) ∧
    matClassInit "Foo" "p"
        (((TKind.keyword, "classdef") : Token) :: (spaces 1 ++
          ((TKind.name, "Foo") : Token) :: (spaces 0 ++
            ((TKind.text, "\n") : Token) :: ((TKind.keyword, "end") : Token) ::
              [((TKind.text, "\n") : Token)]))) =
      .ok ⟨"Foo", "p",
        ((TKind.keyword, "classdef") : Token) :: (spaces 1 ++
          ((TKind.name, "Foo") : Token) :: (spaces 0 ++
            ((TKind.text, "\n") : Token) :: ((TKind.keyword, "end") : Token) ::
              [((TKind.text, "\n") : Token)])),
        [], [], "", [], []⟩ :=
  ⟨by decide, C1_theorem "Foo" "p" 1 0 ((TKind.keyword, "end") : Token) (by decide)
    [((TKind.text, "\n") : Token)]⟩

/-- C2 (confirmed): for every token stream whose first token is not
`(Keyword, "classdef")`, `MatClass` construction fails with the `NotAClass`
error (the `TypeError` of line 301) and no class value is returned. -/
theorem C2_theorem (name path : String) (t : Token) (ts : List Token)
    (h : t ≠ ((TKind.keyword, "classdef") : Token)) :
    matClassInit name path (t :: ts) = .error .notAClass := by
  simp [matClassInit, h]

/-- C2 witness: concrete instance of `C2_theorem`. -/
theorem C2_witness :
    ((TKind.keyword, "function") : Token) ≠ ((TKind.keyword, "classdef") : Token) ∧
    matClassInit "foo" "p" [((TKind.keyword, "function") : Token)] = .error .notAClass :=
  ⟨by decide, C2_theorem "foo" "p" ((TKind.keyword, "function") : Token) [] (by decide)⟩

/-- Attribute specifications used by the C3 witness. -/
def c3specs : List AttrSpec :=
  [⟨1, "Sealed", 1, 1, true, 0⟩, ⟨1, "Hidden", 0, 0, false, 0⟩]

/-- C3 witness: concrete instance of `C3_theorem` with
`( Sealed = true, Hidden=false )`-style spacing. -/
theorem C3_witness :
    (∀ s ∈ c3specs, (cls_attr_types.lookup s.aname).isSome) ∧
    (c3specs.map AttrSpec.aname).Nodup ∧
    ¬ isInd ((TKind.keyword, "end") : Token) ∧
    matClassInit "Foo" "p"
        (((TKind.keyword, "classdef") : Token) :: (spaces 1 ++
          ((TKind.punctuation, "(") : Token) :: (attrsToks c3specs ++
            ((TKind.punctuation, ")") : Token) :: (spaces 1 ++
              ((TKind.name, "Foo") : Token) :: (spaces 0 ++
                ((TKind.text, "\n") : Token) :: ((TKind.keyword, "end") : Token) :: []))))) =
      .ok ⟨"Foo", "p",
        ((TKind.keyword, "classdef") : Token) :: (spaces 1 ++
          ((TKind.punctuation, "(") : Token) :: (attrsToks c3specs ++
            ((TKind.punctuation, ")") : Token) :: (spaces 1 ++
              ((TKind.name, "Foo") : Token) :: (spaces 0 ++
                ((TKind.text, "\n") : Token) :: ((TKind.keyword, "end") : Token) :: [])))),
        c3specs.map (fun s => (s.aname, AttrVal.vstr (bstr s.val))), [], "", [], []⟩ :=
  ⟨by decide, by decide, by decide,
    C3_theorem "Foo" "p" c3specs (by decide) (by decide) 1 1 0
      ((TKind.keyword, "end") : Token) (by decide) []⟩

/-- Attribute specifications used by the C4 witness. -/
def c4specs : List AttrSpec := [⟨0, "Sealed", 0, 0, true, 0⟩]

/-- C4 witness: concrete instance of `C4_theorem`: `(Sealed=true, Bogus...`
fails with `UnknownAttribute "Bogus"` whatever follows. -/
theorem C4_witness :
    (∀ s ∈ c4specs, (cls_attr_types.lookup s.aname).isSome) ∧
    cls_attr_types.lookup "Bogus" = none ∧
    matClassInit "Foo" "p"
        (((TKind.keyword, "classdef") : Token) :: (spaces 1 ++
          ((TKind.punctuation, "(") : Token) ::
            attrsToksPre c4specs (spaces 1 ++ ((TKind.name, "Bogus") : Token) ::
              [((TKind.keyword, "end") : Token)]))) =
      .error (.unknownAttr "Bogus") :=
  ⟨by decide, by decide,
    C4_theorem "Foo" "p" c4specs (by decide) "Bogus" (by decide) 1 1
      [((TKind.keyword, "end") : Token)]⟩

/-- C5 (counterexample to the claim as stated): with zero-width blank runs
around `&`, the tokens of `classdef Foo < A&B` produce the single glued base
name "A&B", not `["A", "B"]`, so the claim fails for zero-width runs. -/
theorem C5_counterexample :
    matClassInit "Foo" "p"
      [((TKind.keyword, "classdef") : Token), (TKind.text, " "), (TKind.name, "Foo"),
       (TKind.text, " "), (TKind.operator, "<"), (TKind.text, " "), (TKind.name, "A"),
       (TKind.operator, "&"), (TKind.name, "B"), (TKind.text, "\n"),
       (TKind.keyword, "end")] =
      .ok ⟨"Foo", "p",
        [((TKind.keyword, "classdef") : Token), (TKind.text, " "), (TKind.name, "Foo"),
         (TKind.text, " "), (TKind.operator, "<"), (TKind.text, " "), (TKind.name, "A"),
         (TKind.operator, "&"), (TKind.name, "B"), (TKind.text, "\n"),
         (TKind.keyword, "end")],
        [], ["A&B"], "", [], []⟩ := rfl

/-- Superclass specifications used by the C5 witness (`< A & B  &C`-style). -/
def c5specs : List BaseSpec := [⟨0, "A", 1⟩, ⟨1, "B", 2⟩, ⟨0, "C", 0⟩]

/-- C5 witness: concrete instance of `C5_theorem`. -/
theorem C5_witness :
    c5specs ≠ [] ∧ basesChainOK c5specs ∧ ¬ isWs ((TKind.keyword, "end") : Token) ∧
    matClassInit "Foo" "p"
        (((TKind.keyword, "classdef") : Token) :: (spaces 1 ++
          ((TKind.name, "Foo") : Token) :: (spaces 1 ++
            ((TKind.operator, "<") : Token) :: (basesToks c5specs ++
              ((TKind.keyword, "end") : Token) :: [])))) =
      .ok ⟨"Foo", "p",
        ((TKind.keyword, "classdef") : Token) :: (spaces 1 ++
          ((TKind.name, "Foo") : Token) :: (spaces 1 ++
            ((TKind.operator, "<") : Token) :: (basesToks c5specs ++
              ((TKind.keyword, "end") : Token) :: []))),
        [], c5specs.map BaseSpec.base, "", [], []⟩ :=
  ⟨by decide, by decide, by decide,
    C5_theorem "Foo" "p" c5specs (by decide) (by decide) 1 1
      ((TKind.keyword, "end") : Token) (by decide) []⟩

/-- C6 (counterexample to the claim as stated): after two contiguous indented
comment lines `%a`, `%b`, a non-indented comment line `%c` follows; the claim
says the docstring phase stops at that non-indented line, but the code keeps
appending: the docstring is "%a\n%b\n%c\n" rather than "%a\n%b\n". -/
theorem C6_counterexample :
    matClassInit "Foo" "p"
      [((TKind.keyword, "classdef") : Token), (TKind.text, " "), (TKind.name, "Foo"),
       (TKind.text, "\n"), (TKind.text, " "), (TKind.text, " "), (TKind.comment, "%a"),
       (TKind.text, "\n"), (TKind.text, " "), (TKind.text, " "), (TKind.comment, "%b"),
       (TKind.text, "\n"), (TKind.comment, "%c"), (TKind.text, "\n"),
       (TKind.keyword, "end"), (TKind.text, "\n")] =
      .ok ⟨"Foo", "p",
        [((TKind.keyword, "classdef") : Token), (TKind.text, " "), (TKind.name, "Foo"),
         (TKind.text, "\n"), (TKind.text, " "), (TKind.text, " "), (TKind.comment, "%a"),
         (TKind.text, "\n"), (TKind.text, " "), (TKind.text, " "), (TKind.comment, "%b"),
         (TKind.text, "\n"), (TKind.comment, "%c"), (TKind.text, "\n"),
         (TKind.keyword, "end"), (TKind.text, "\n")],
        [], [], "%a\n%b\n%c\n", [], []⟩ := rfl

/-- Further docstring lines used by the C6 witness (an indented and a
non-indented comment line). -/
def c6lines : List DocLine := [⟨2, "%b"⟩, ⟨0, "%c"⟩]

/-- C6 witness: concrete instance of `C6_theorem`. -/
theorem C6_witness :
    ((TKind.keyword, "end") : Token).1 ≠ TKind.comment ∧
    ¬ isInd ((TKind.keyword, "end") : Token) ∧
    matClassInit "Foo" "p"
        (((TKind.keyword, "classdef") : Token) :: (spaces 1 ++
          ((TKind.name, "Foo") : Token) :: (spaces 0 ++
            ((TKind.text, "\n") : Token) :: (spaces (1 + 1) ++
              ((TKind.comment, "%a") : Token) :: ((TKind.text, "\n") : Token) ::
                (docToksAfter c6lines ++ ((TKind.keyword, "end") : Token) :: []))))) =
      .ok ⟨"Foo", "p",
        ((TKind.keyword, "classdef") : Token) :: (spaces 1 ++
          ((TKind.name, "Foo") : Token) :: (spaces 0 ++
            ((TKind.text, "\n") : Token) :: (spaces (1 + 1) ++
              ((TKind.comment, "%a") : Token) :: ((TKind.text, "\n") : Token) ::
                (docToksAfter c6lines ++ ((TKind.keyword, "end") : Token) :: [])))),
        [], [], c6lines.foldl (fun d l => d ++ l.txt ++ "\n") ("%a" ++ "\n"), [], []⟩ :=
  ⟨by decide, by decide,
    C6_theorem "Foo" "p" 1 0 1 "%a" c6lines ((TKind.keyword, "end") : Token)
      (by decide) (by decide) []⟩

/-- C7 (confirmed): parsing is deterministic — two `MatClass` constructions
from the identical token stream, expected name and path yield classes that
are equal field for field (`name`, `path`, `tokens`, `attrs`, `bases`,
`docstring`, `properties`, `methods`). -/
theorem C7_theorem (name path : String) (tks : List Token) (c1 c2 : MatClass)
    (h1 : matClassInit name path tks = .ok c1)
    (h2 : matClassInit name path tks = .ok c2) :
    c1.name = c2.name ∧ c1.path = c2.path ∧ c1.tokens = c2.tokens ∧
      c1.attrs = c2.attrs ∧ c1.bases = c2.bases ∧ c1.docstring = c2.docstring ∧
      c1.properties = c2.properties ∧ c1.methods = c2.methods := by
  rw [h1] at h2
  injection h2 with h
  subst h
  exact ⟨rfl, rfl, rfl, rfl, rfl, rfl, rfl, rfl⟩

/-- Token stream used by the C7 witness. -/
def c7toks : List Token :=
  [((TKind.keyword, "classdef") : Token), (TKind.text, " "), (TKind.name, "Foo"),
   (TKind.text, "\n"), (TKind.keyword, "end")]

/-- Class value used by the C7 witness. -/
def c7cls : MatClass := ⟨"Foo", "p", c7toks, [], [], "", [], []⟩

/-- C7 witness: concrete instance of `C7_theorem`. -/
theorem C7_witness :
    matClassInit "Foo" "p" c7toks = .ok c7cls ∧
    (c7cls.name = c7cls.name ∧ c7cls.path = c7cls.path ∧ c7cls.tokens = c7cls.tokens ∧
      c7cls.attrs = c7cls.attrs ∧ c7cls.bases = c7cls.bases ∧
      c7cls.docstring = c7cls.docstring ∧ c7cls.properties = c7cls.properties ∧
      c7cls.methods = c7cls.methods) :=
  ⟨rfl, C7_theorem "Foo" "p" c7toks c7cls c7cls rfl rfl⟩

/-- C8 (code bug): dispatching the tokens of `function foo(x)\nend` through
`MatObject.parse_mfile` is claimed to yield a Function stub with name "foo";
in the code, `MatFunction.__init__`'s first statement
`super(MatClass, self).__init__(name)` raises `TypeError` because a
`MatFunction` instance is not an instance of `MatClass`, so the dispatch
fails and no Function value is produced. -/
theorem C8_theorem :
    parseMfile "foo" "p"
      [((TKind.keyword, "function") : Token), (TKind.text, " "), (TKind.name, "foo"),
       (TKind.punctuation, "("), (TKind.name, "x"), (TKind.punctuation, ")"),
       (TKind.text, "\n"), (TKind.keyword, "end"), (TKind.text, "\n")] =
      .error .superTypeErr := rfl

/-- C9 (confirmed): for every token stream on which `MatClass` construction
succeeds, the resulting `bases` list contains no empty string (line 379's
`if base_name:` guard). -/
theorem C9_theorem (name path : String) (tks : List Token) (c : MatClass)
    (h : matClassInit name path tks = .ok c) : "" ∉ c.bases :=
  (matClassInit_ok_shape name path tks c h).2.2.2.2.2

/-- Token stream used by the C9 witness (`classdef Foo < A`). -/
def c9toks : List Token :=
  [((TKind.keyword, "classdef") : Token), (TKind.text, " "), (TKind.name, "Foo"),
   (TKind.text, " "), (TKind.operator, "<"), (TKind.text, " "), (TKind.name, "A"),
   (TKind.text, "\n"), (TKind.keyword, "end")]

/-- Class value used by the C9 witness. -/
def c9cls : MatClass := ⟨"Foo", "p", c9toks, [], ["A"], "", [], []⟩

/-- C9 witness: concrete instance of `C9_theorem`. -/
theorem C9_witness :
    matClassInit "Foo" "p" c9toks = .ok c9cls ∧ "" ∉ c9cls.bases :=
  ⟨rfl, C9_theorem "Foo" "p" c9toks c9cls rfl⟩

/-- C10 (confirmed): the embedding of `MatClass.__init__` is a pure function
of the token list — the source only ever reads `self.tokens[idx]` and never
writes an element — and on success the class's `tokens` field is exactly the
input sequence, element for element. -/
theorem C10_theorem (name path : String) (tks : List Token) (c : MatClass)
    (h : matClassInit name path tks = .ok c) : c.tokens = tks :=
  (matClassInit_ok_shape name path tks c h).2.2.1

/-- Token stream used by the C10 witness. -/
def c10toks : List Token :=
  [((TKind.keyword, "classdef") : Token), (TKind.text, " "), (TKind.name, "Bar"),
   (TKind.text, "\n"), (TKind.keyword, "end"), (TKind.text, "\n")]

/-- Class value used by the C10 witness. -/
def c10cls : MatClass := ⟨"Bar", "q", c10toks, [], [], "", [], []⟩

/-- C10 witness: concrete instance of `C10_theorem`. -/
theorem C10_witness :
    matClassInit "Bar" "q" c10toks = .ok c10cls ∧ c10cls.tokens = c10toks :=
  ⟨rfl, C10_theorem "Bar" "q" c10toks c10cls rfl⟩
